import Mathlib

/-!
# Shallow embedding of the SWAP accounting core (swap/swap.go)

This file embeds the balance ledger, cheque factory and deployment loop of
the SWAP micropayment accounting package and proves the claimed properties
about them.

Modelling conventions:

* A peer identity (`enode.ID`) is modelled by its canonical string form
  (`peer.String()`); `enode.HexID` applied to a canonical id string is the
  identity, so `keyToID` becomes suffix extraction after the key prefix.
* Go `int64` / `uint64` values are modelled as unbounded `Int` / `Nat`
  (the spec states the ledger invariants in exact integer arithmetic);
  the two explicit Go conversions, `uint64(-peerBalance)` in `createCheque`
  and `int64(cheque.Amount)` in `sendCheque`, are modelled exactly with
  two-power modular reduction (`uint64OfInt`, `int64OfNat`).
* Go maps are association lists (`alookup` / `aset`); indexing an absent
  key yields the zero value, as in Go (`Swap.memBalance`).
* The state store (`state.Store`) is modelled per key namespace: a partial
  map for the `balance_` namespace and one for the `sent_cheque_`
  namespace, together with fault switches that make a particular `Get`,
  `Put` or `Keys` call return an error other than `ErrNotFound`.  `Get` of
  an absent key returns `ErrNotFound` and leaves the output variable at its
  zero value, as the Go store does.
* External capabilities (price oracle `GetPrice`, the peer's registered
  beneficiary address, ECDSA signing, and the transport `Send`) are fields
  of an `Env` record.
* `Swap.applied` is a ghost history field: `updateBalance` appends every
  delta it applies to the in-memory balance.  No embedded operation reads
  it; it only lets theorems speak about "the sum of all applied deltas".
  Likewise `deployLoop` additionally returns ghost counters for the number
  of attempts made and the number of fixed-delay sleeps performed.
-/

/-- Peer identity (`enode.ID`), modelled by its canonical string form. -/
abbrev PeerID := String

/-- Go conversion `uint64(x)` of a signed value, as modular reduction. -/
def uint64OfInt (x : Int) : Nat := (x % ((2 : Int) ^ 64)).toNat

/-- Go conversion `int64(u)` of an unsigned value, as modular reduction. -/
def int64OfNat (u : Nat) : Int := ((u : Int) + 2 ^ 63) % 2 ^ 64 - 2 ^ 63

/-- ChequeParams: the signed content of a cheque (swap.go / types). -/
structure ChequeParams where
  serial : Nat
  amount : Nat
  timeout : Nat
  contract : Nat
  honey : Nat
  deriving DecidableEq

/-- Cheque: cheque parameters plus beneficiary and signature. -/
structure Cheque where
  params : ChequeParams
  beneficiary : Nat
  sig : Nat
  deriving DecidableEq

/-- Errors surfaced by the embedded operations.  `notFound` is the
distinguished `state.ErrNotFound`; `storeErr` is any other store error;
`disconnected` is the disconnect-threshold error built in `Add`, carrying
the offending peer and the threshold it names; the remaining constructors
carry errors of the oracle, the signer and the transport. -/
inductive Err where
  | notFound
  | storeErr (e : String)
  | disconnected (peer : PeerID) (threshold : Int)
  | oracleErr (e : String)
  | signErr (e : String)
  | sendErr (e : String)
  deriving DecidableEq

/-- Association-list lookup (Go map read, `v, ok := m[k]`). -/
def alookup {β : Type} : List (PeerID × β) → PeerID → Option β
  | [], _ => none
  | (k, v) :: t, q => if k = q then some v else alookup t q

/-- Association-list update (Go map write `m[k] = v`). -/
def aset {β : Type} : List (PeerID × β) → PeerID → β → List (PeerID × β)
  | [], k, v => [(k, v)]
  | (k', v') :: t, k, v => if k' = k then (k, v) :: t else (k', v') :: aset t k v

/-- The persistent state store, per namespace, with fault injection for
errors other than `ErrNotFound`. -/
structure StateStore where
  balances : List (PeerID × Int)
  sentCheques : List (PeerID × Cheque)
  getBalanceFault : PeerID → Option String
  putBalanceFault : PeerID → Option String
  getChequeFault : PeerID → Option String
  putChequeFault : PeerID → Option String
  keysFault : Option String

/-- `balancePrefix` of the source ("balance_"). -/
def balancePre : String := "balance_"

/-- balanceKey: store key for a peer's balance. -/
def balanceKey (p : PeerID) : String := balancePre ++ p

/-- keyToID: recover the peer id from a store key (`enode.HexID` of the
canonical id string is the identity, so this is suffix extraction). -/
def keyToID (key : String) (pre : String) : PeerID := key.drop pre.length

/-- Store `Get` on the balance namespace. -/
def StateStore.getBalance (st : StateStore) (p : PeerID) : Except Err Int :=
  match st.getBalanceFault p with
  | some e => .error (.storeErr e)
  | none =>
    match alookup st.balances p with
    | some v => .ok v
    | none => .error .notFound

/-- Store `Put` on the balance namespace. -/
def StateStore.putBalance (st : StateStore) (p : PeerID) (v : Int) :
    StateStore × Option Err :=
  match st.putBalanceFault p with
  | some e => (st, some (.storeErr e))
  | none => ({ st with balances := aset st.balances p v }, none)

/-- Store `Get` on the sent-cheque namespace. -/
def StateStore.getSentCheque (st : StateStore) (p : PeerID) : Except Err Cheque :=
  match st.getChequeFault p with
  | some e => .error (.storeErr e)
  | none =>
    match alookup st.sentCheques p with
    | some c => .ok c
    | none => .error .notFound

/-- Store `Put` on the sent-cheque namespace. -/
def StateStore.putSentCheque (st : StateStore) (p : PeerID) (c : Cheque) :
    StateStore × Option Err :=
  match st.putChequeFault p with
  | some e => (st, some (.storeErr e))
  | none => ({ st with sentCheques := aset st.sentCheques p c }, none)

/-- Store `Keys(balancePrefix)`.  The store holds the balance-namespace
keys in `balanceKey`-encoded form, and the three namespace prefixes are
mutually non-overlapping, so prefix filtering returns exactly the keys of
the balance namespace. -/
def StateStore.keysBalance (st : StateStore) : Except Err (List String) :=
  match st.keysFault with
  | some e => .error (.storeErr e)
  | none => .ok (st.balances.map (fun e => balanceKey e.1))

/-- External capabilities used by the ledger. -/
structure Env where
  oracle : Nat → Except String Nat
  beneficiary : PeerID → Nat
  sign : ChequeParams → Nat → Except String Nat
  send : Except String Unit

/-- The Swap ledger state.  `balances` and `cheques` are the in-memory
caches (a cheque-cache entry holding `none` models a stored nil pointer,
as written by a failed `loadLastSentCheque`).  `applied` is the ghost
history of deltas applied by `updateBalance`. -/
structure Swap where
  store : StateStore
  balances : List (PeerID × Int)
  cheques : List (PeerID × Option Cheque)
  paymentThreshold : Int
  disconnectThreshold : Int
  ownerContract : Nat
  applied : List Int

/-- Go map read `s.balances[peer]` (absent key yields zero). -/
def Swap.memBalance (s : Swap) (p : PeerID) : Int := (alookup s.balances p).getD 0

/-- defaultCashInDelay: numeric value defined outside the given sources;
no claim depends on it. -/
def defaultCashInDelay : Nat := 0

/-- loadBalance: fill the balance cache from the store if absent.  On any
`Get` error (including `ErrNotFound`) the output variable keeps its zero
value and is still written to the cache, exactly as the Go code does. -/
def Swap.loadBalance (s : Swap) (p : PeerID) : Swap × Option Err :=
  match alookup s.balances p with
  | some _ => (s, none)
  | none =>
    match s.store.getBalance p with
    | .ok v => ({ s with balances := aset s.balances p v }, none)
    | .error e => ({ s with balances := aset s.balances p 0 }, some e)

/-- updateBalance: apply the delta to the in-memory balance, persist the
new value, and return it together with the `Put` error.  The delta is also
recorded in the ghost `applied` history. -/
def Swap.updateBalance (s : Swap) (p : PeerID) (amount : Int) :
    Swap × Int × Option Err :=
  let newBal := s.memBalance p + amount
  let s₁ := { s with balances := aset s.balances p newBal,
                     applied := s.applied ++ [amount] }
  let (st, perr) := s₁.store.putBalance p newBal
  ({ s₁ with store := st }, newBal, perr)

/-- resetBalance: credit the balance, discarding updateBalance's results. -/
def Swap.resetBalance (s : Swap) (p : PeerID) (amount : Int) : Swap :=
  (s.updateBalance p amount).1

/-- loadLastSentCheque: fill the cheque cache from the store if absent.
On any `Get` error the nil cheque pointer is written to the cache. -/
def Swap.loadLastSentCheque (s : Swap) (p : PeerID) : Swap × Option Err :=
  match alookup s.cheques p with
  | some _ => (s, none)
  | none =>
    match s.store.getSentCheque p with
    | .ok c => ({ s with cheques := aset s.cheques p (some c) }, none)
    | .error e => ({ s with cheques := aset s.cheques p none }, some e)

/-- createCheque: build and sign the next cheque for a peer from its
current (negative) balance and its last sent cheque.  The load error of
`loadLastSentCheque` is deliberately discarded (`_ =` in the source). -/
def Swap.createCheque (s : Swap) (env : Env) (p : PeerID) :
    Swap × Except Err Cheque :=
  let beneficiary := env.beneficiary p
  let peerBalance := s.memBalance p
  let honey := uint64OfInt (-peerBalance)
  match env.oracle honey with
  | .error e => (s, .error (.oracleErr e))
  | .ok amount =>
    let s₁ := (s.loadLastSentCheque p).1
    let lastCheque := (alookup s₁.cheques p).getD none
    let ps : ChequeParams :=
      match lastCheque with
      | none =>
          { serial := 1, amount := amount, timeout := defaultCashInDelay,
            contract := s₁.ownerContract, honey := honey }
      | some lc =>
          { serial := lc.params.serial + 1, amount := lc.params.amount + amount,
            timeout := defaultCashInDelay, contract := s₁.ownerContract,
            honey := honey }
    match env.sign ps beneficiary with
    | .error e => (s₁, .error (.signErr e))
    | .ok sig => (s₁, .ok { params := ps, beneficiary := beneficiary, sig := sig })

/-- sendCheque: create the cheque, record it as the peer's last sent
cheque in cache and store, credit the balance by `int64(cheque.Amount)`
(`resetBalance`), and emit it over the transport. -/
def Swap.sendCheque (s : Swap) (env : Env) (p : PeerID) : Swap × Option Err :=
  match s.createCheque env p with
  | (s₁, .error e) => (s₁, some e)
  | (s₁, .ok cheque) =>
    let s₂ := { s₁ with cheques := aset s₁.cheques p (some cheque) }
    let (st, perr) := s₂.store.putSentCheque p cheque
    let s₃ := { s₂ with store := st }
    match perr with
    | some e => (s₃, some e)
    | none =>
      let s₄ := s₃.resetBalance p (int64OfNat cheque.params.amount)
      match env.send with
      | .ok _ => (s₄, none)
      | .error e => (s₄, some (.sendErr e))

/-- Add: the sole accounting entry point.  Note the naked `return` of the
named result `err` in the source: after the cheque branch, whatever
`sendCheque` returned is what `Add` returns. -/
def Swap.Add (s : Swap) (env : Env) (amount : Int) (p : PeerID) :
    Swap × Option Err :=
  let (s₁, lerr) := s.loadBalance p
  match lerr with
  | some Err.notFound | none =>
    if s₁.memBalance p ≥ s₁.disconnectThreshold then
      (s₁, some (.disconnected p s₁.disconnectThreshold))
    else
      match s₁.updateBalance p amount with
      | (s₂, _, some e) => (s₂, some e)
      | (s₂, newBalance, none) =>
        if newBalance ≤ -s₂.paymentThreshold then
          s₂.sendCheque env p
        else
          (s₂, none)
  | some e => (s₁, some e)

/-- Balance: cached value if present, else read through to the store. -/
def Swap.Balance (s : Swap) (p : PeerID) : Int × Option Err :=
  match alookup s.balances p with
  | some v => (v, none)
  | none =>
    match s.store.getBalance p with
    | .ok v => (v, none)
    | .error e => (0, some e)

/-- BalancePeers: every peer known to have a balance — in-memory peers
first, then store-enumerated peers not already present in memory. -/
def Swap.BalancePeers (s : Swap) : Except Err (List PeerID) :=
  let memPeers := s.balances.map Prod.fst
  match s.store.keysBalance with
  | .error e => .error e
  | .ok storeKeys =>
    .ok (memPeers ++
      (storeKeys.map (fun k => keyToID k balancePre)).filter
        (fun pid => !(memPeers.contains pid)))

/-- The chain backend's two deployment stages, per try index: submitting
the deploy transaction (`swap.Deploy`) and waiting for on-chain
confirmation (`bind.WaitDeployed`).  Addresses and transactions are
modelled as naturals; `0` is the zero-value address. -/
structure Backend where
  deployTx : Nat → Except String Nat
  waitDeployed : Nat → Nat → Except String Nat

/-- The combined outcome of deployment attempt `i`: the submission error,
or else the confirmation outcome. -/
def attemptResult (b : Backend) (i : Nat) : Except String Nat :=
  match b.deployTx i with
  | .error e => .error e
  | .ok tx => b.waitDeployed i tx

/-- Recursive body of `deployLoop`: the remaining try indices, the current
`addr` and `err` variables, and the ghost attempt and sleep counters (a
sleep of the fixed `deployDelay` happens before every attempt with
`try > 0`).  A confirmation failure overwrites `addr` with the zero-value
address returned by `WaitDeployed`. -/
def deployLoopGo (b : Backend) :
    List Nat → Nat → Option String → Nat → Nat → Nat × Option String × Nat × Nat
  | [], addr, err, attempts, sleeps => (addr, err, attempts, sleeps)
  | t :: rest, addr, _err, attempts, sleeps =>
    let sleeps' := if 0 < t then sleeps + 1 else sleeps
    match b.deployTx t with
    | .error e => deployLoopGo b rest addr (some e) (attempts + 1) sleeps'
    | .ok tx =>
      match b.waitDeployed t tx with
      | .error e => deployLoopGo b rest 0 (some e) (attempts + 1) sleeps'
      | .ok a => (a, none, attempts + 1, sleeps')

/-- deployLoop: repeatedly try to deploy the swap contract, for try
indices `0, 1, …, deployRetries - 1`.  The result is the `(addr, err)`
pair of the source plus the ghost attempt and sleep counters. -/
def deployLoop (b : Backend) (retries : Nat) : Nat × Option String × Nat × Nat :=
  deployLoopGo b (List.range retries) 0 none 0 0

/-- The effective balance of a peer: the cached value if the peer is in
memory, else the stored value, else zero. -/
def Swap.effBalance (s : Swap) (p : PeerID) : Int :=
  match alookup s.balances p with
  | some v => v
  | none => (alookup s.store.balances p).getD 0

/-- The effective last sent cheque of a peer: the cached pointer if the
peer's cheque is in memory (possibly nil), else the stored cheque if the
store read succeeds, else none.  This is exactly the `lastCheque` that
`createCheque` ends up using. -/
def Swap.effLast (s : Swap) (p : PeerID) : Option Cheque :=
  match alookup s.cheques p with
  | some oc => oc
  | none =>
    match s.store.getSentCheque p with
    | .ok c => some c
    | .error _ => none

/-- The honey amount `createCheque` snapshots for a peer. -/
def Swap.honeyOf (s : Swap) (p : PeerID) : Nat := uint64OfInt (-(s.memBalance p))

/-- The serial of the next cheque, per the spec's recurrence. -/
def nextSerial : Option Cheque → Nat
  | none => 1
  | some lc => lc.params.serial + 1

/-- The cumulative amount of the next cheque, per the spec's recurrence. -/
def nextAmount (last : Option Cheque) (conv : Nat) : Nat :=
  match last with
  | none => conv
  | some lc => lc.params.amount + conv

/-- Run a sequence of `Add` calls for one peer, discarding the results. -/
def Swap.runAdds (s : Swap) (env : Env) (p : PeerID) : List Int → Swap
  | [] => s
  | a :: rest => ((s.Add env a p).1).runAdds env p rest

/-- Iterate `sendCheque` for one peer, discarding the results. -/
def Swap.sendN (s : Swap) (env : Env) (p : PeerID) : Nat → Swap
  | 0 => s
  | n + 1 => ((s.sendN env p n).sendCheque env p).1

/-- A fault-free empty store, used by concrete instantiations. -/
def stOK : StateStore :=
  { balances := [], sentCheques := [], getBalanceFault := fun _ => none,
    putBalanceFault := fun _ => none, getChequeFault := fun _ => none,
    putChequeFault := fun _ => none, keysFault := none }

/-- An environment whose oracle converts 1:1, used by concrete
instantiations. -/
def envOK : Env :=
  { oracle := fun h => .ok h, beneficiary := fun _ => 7,
    sign := fun _ _ => .ok 9, send := .ok () }

/-- A fresh ledger with payment and disconnect thresholds 100, used by
concrete instantiations. -/
def swOK : Swap :=
  { store := stOK, balances := [], cheques := [], paymentThreshold := 100,
    disconnectThreshold := 100, ownerContract := 5, applied := [] }

theorem alookup_aset {β : Type} (l : List (PeerID × β)) (k q : PeerID) (v : β) :
    alookup (aset l k v) q = if k = q then some v else alookup l q := by
  induction l with
  | nil => simp [aset, alookup]
  | cons h t ih =>
    obtain ⟨k', v'⟩ := h
    by_cases hk : k' = k
    · subst hk
      by_cases hq : k' = q <;> simp [aset, alookup, hq]
    · by_cases hq : k' = q
      · subst hq
        have : ¬ k = k' := fun h => hk h.symm
        simp [aset, alookup, hk, this]
      · simp [aset, alookup, hk, hq, ih]

theorem int64OfNat_of_lt {u : Nat} (h : u < 2 ^ 63) : int64OfNat u = (u : Int) := by
  unfold int64OfNat
  have h0 : (0 : Int) ≤ (u : Int) + 2 ^ 63 := by positivity
  have h1 : (u : Int) + 2 ^ 63 < 2 ^ 64 := by
    have : (u : Int) < 2 ^ 63 := by exact_mod_cast h
    norm_num
    omega
  rw [Int.emod_eq_of_lt h0 h1]
  ring

theorem keyToID_balanceKey (p : PeerID) : keyToID (balanceKey p) balancePre = p := by
  have h : "balance_".length = 8 := rfl
  simp [keyToID, balanceKey, balancePre, String.drop_eq, String.data_append, h]

/-- Characterization of `loadBalance` when the balance `Get` cannot fail
with a hard error: the peer ends up cached at its effective balance, the
returned error is at most `ErrNotFound`, and nothing else changes. -/
theorem loadBalance_fault_free (s : Swap) (p : PeerID)
    (h : s.store.getBalanceFault p = none) :
    ((s.loadBalance p).2 = none ∨ (s.loadBalance p).2 = some .notFound) ∧
    alookup (s.loadBalance p).1.balances p = some (s.effBalance p) ∧
    (∀ q, q ≠ p → alookup (s.loadBalance p).1.balances q = alookup s.balances q) ∧
    (s.loadBalance p).1.store = s.store ∧
    (s.loadBalance p).1.cheques = s.cheques ∧
    (s.loadBalance p).1.applied = s.applied ∧
    (s.loadBalance p).1.paymentThreshold = s.paymentThreshold ∧
    (s.loadBalance p).1.disconnectThreshold = s.disconnectThreshold ∧
    (s.loadBalance p).1.ownerContract = s.ownerContract := by
  cases hc : alookup s.balances p with
  | some v =>
    simp [Swap.loadBalance, hc, Swap.effBalance]
  | none =>
    cases hs : alookup s.store.balances p with
    | some v =>
      simp [Swap.loadBalance, hc, StateStore.getBalance, h, hs, Swap.effBalance,
        alookup_aset]
      intro q hq
      simp [alookup_aset, Ne.symm hq]
    | none =>
      simp [Swap.loadBalance, hc, StateStore.getBalance, h, hs, Swap.effBalance,
        alookup_aset]
      intro q hq
      simp [alookup_aset, Ne.symm hq]

/-- Characterization of `updateBalance` when the balance `Put` succeeds. -/
theorem updateBalance_fault_free (s : Swap) (p : PeerID) (a : Int)
    (h : s.store.putBalanceFault p = none) :
    s.updateBalance p a =
      ({ s with balances := aset s.balances p (s.memBalance p + a),
                applied := s.applied ++ [a],
                store := { s.store with
                  balances := aset s.store.balances p (s.memBalance p + a) } },
       s.memBalance p + a, none) := by
  simp [Swap.updateBalance, StateStore.putBalance, h]

/-- Characterization of `updateBalance` when the balance `Put` fails: the
in-memory balance is already updated, the store is untouched, and the
error is returned. -/
theorem updateBalance_fault (s : Swap) (p : PeerID) (a : Int) (e : String)
    (h : s.store.putBalanceFault p = some e) :
    s.updateBalance p a =
      ({ s with balances := aset s.balances p (s.memBalance p + a),
                applied := s.applied ++ [a] },
       s.memBalance p + a, some (.storeErr e)) := by
  simp [Swap.updateBalance, StateStore.putBalance, h]

/-- Characterization of `loadLastSentCheque`: the peer ends up cached at
its effective last cheque (possibly the nil pointer) and nothing else
changes. -/
theorem loadLastSentCheque_spec (s : Swap) (p : PeerID) :
    alookup (s.loadLastSentCheque p).1.cheques p = some (s.effLast p) ∧
    (∀ q, q ≠ p → alookup (s.loadLastSentCheque p).1.cheques q = alookup s.cheques q) ∧
    (s.loadLastSentCheque p).1.balances = s.balances ∧
    (s.loadLastSentCheque p).1.store = s.store ∧
    (s.loadLastSentCheque p).1.applied = s.applied ∧
    (s.loadLastSentCheque p).1.paymentThreshold = s.paymentThreshold ∧
    (s.loadLastSentCheque p).1.disconnectThreshold = s.disconnectThreshold ∧
    (s.loadLastSentCheque p).1.ownerContract = s.ownerContract := by
  cases hc : alookup s.cheques p with
  | some oc =>
    simp [Swap.loadLastSentCheque, hc, Swap.effLast]
  | none =>
    cases hs : s.store.getSentCheque p with
    | ok c =>
      simp [Swap.loadLastSentCheque, hc, hs, Swap.effLast, alookup_aset]
      intro q hq
      simp [alookup_aset, Ne.symm hq]
    | error e =>
      simp [Swap.loadLastSentCheque, hc, hs, Swap.effLast, alookup_aset]
      intro q hq
      simp [alookup_aset, Ne.symm hq]

/-- Rejection behaviour of `Add` for a peer at or over the disconnect
threshold: the disconnect error naming the peer and the threshold is
returned, the effective balance is untouched and the store is untouched. -/
theorem add_disconnect_reject (s : Swap) (env : Env) (a : Int) (p : PeerID)
    (hload : (∃ v, alookup s.balances p = some v) ∨ s.store.getBalanceFault p = none)
    (hbal : s.disconnectThreshold ≤ s.effBalance p) :
    (s.Add env a p).2 = some (.disconnected p s.disconnectThreshold) ∧
    (s.Add env a p).1.effBalance p = s.effBalance p ∧
    (s.Add env a p).1.store = s.store := by
  rcases hload with ⟨v, hc⟩ | hff
  · have heff : s.effBalance p = v := by simp [Swap.effBalance, hc]
    have hmem : s.memBalance p = v := by simp [Swap.memBalance, hc]
    simp [Swap.Add, Swap.loadBalance, hc, hmem, heff ▸ hbal, Swap.effBalance, heff]
  · obtain ⟨herr, hcp, _, hst, _, _, _, hdt, _⟩ := loadBalance_fault_free s p hff
    rcases hsl : s.loadBalance p with ⟨s₁, lerr⟩
    simp only [hsl] at herr hcp hst hdt
    have hmem : s₁.memBalance p = s.effBalance p := by simp [Swap.memBalance, hcp]
    have heff : s₁.effBalance p = s.effBalance p := by simp [Swap.effBalance, hcp]
    rcases herr with h | h <;> subst h <;>
      simp [Swap.Add, hsl, hmem, hdt, hbal, heff, hst]

/-- C2: for a peer whose cached or stored balance is at or above the
disconnect threshold, the next `Add` (any amount) returns the disconnect
error naming the peer and the threshold, and the peer's balance — in
memory and in the store — is unchanged (the whole store is unchanged; the
cache may at most be filled with the very value the store already held). -/
theorem add_rejects_at_disconnect_threshold (s : Swap) (env : Env) (a : Int)
    (p : PeerID)
    (hload : (∃ v, alookup s.balances p = some v) ∨ s.store.getBalanceFault p = none)
    (hbal : s.disconnectThreshold ≤ s.effBalance p) :
    (s.Add env a p).2 = some (.disconnected p s.disconnectThreshold) ∧
    (s.Add env a p).1.effBalance p = s.effBalance p ∧
    (s.Add env a p).1.store = s.store :=
  add_disconnect_reject s env a p hload hbal

/-- Witness for C2 at a concrete input: a peer cached at the threshold. -/
theorem add_rejects_at_disconnect_threshold_witness :
    (({ swOK with balances := [("p", 100)] } : Swap).Add envOK 5 "p").2 =
      some (.disconnected "p" 100) ∧
    (({ swOK with balances := [("p", 100)] } : Swap).Add envOK 5 "p").1.effBalance "p" =
      ({ swOK with balances := [("p", 100)] } : Swap).effBalance "p" ∧
    (({ swOK with balances := [("p", 100)] } : Swap).Add envOK 5 "p").1.store =
      ({ swOK with balances := [("p", 100)] } : Swap).store :=
  add_rejects_at_disconnect_threshold _ envOK 5 "p" (Or.inl ⟨100, by decide⟩)
    (by decide)

/-- Behaviour of `Add` when the balance store calls succeed for the peer,
the pre-delta balance is under the disconnect threshold and the post-delta
balance stays over the negative payment threshold: the delta is applied
and persisted, no cheque is issued, and `Add` succeeds. -/
theorem add_no_cheque (s : Swap) (env : Env) (a : Int) (p : PeerID)
    (hget : s.store.getBalanceFault p = none)
    (hput : s.store.putBalanceFault p = none)
    (hpre : s.effBalance p < s.disconnectThreshold)
    (hnc : -s.paymentThreshold < s.effBalance p + a) :
    (s.Add env a p).2 = none ∧
    alookup (s.Add env a p).1.balances p = some (s.effBalance p + a) ∧
    alookup (s.Add env a p).1.store.balances p = some (s.effBalance p + a) ∧
    (s.Add env a p).1.effBalance p = s.effBalance p + a ∧
    (s.Add env a p).1.store.getBalanceFault = s.store.getBalanceFault ∧
    (s.Add env a p).1.store.putBalanceFault = s.store.putBalanceFault ∧
    (s.Add env a p).1.paymentThreshold = s.paymentThreshold ∧
    (s.Add env a p).1.disconnectThreshold = s.disconnectThreshold := by
  obtain ⟨herr, hcp, _, hst, _, _, hpt, hdt, _⟩ := loadBalance_fault_free s p hget
  rcases hsl : s.loadBalance p with ⟨s₁, lerr⟩
  simp only [hsl] at herr hcp hst hpt hdt
  have hmem : s₁.memBalance p = s.effBalance p := by simp [Swap.memBalance, hcp]
  have hub := updateBalance_fault_free s₁ p a (by rw [hst]; exact hput)
  have hnotged : ¬ s₁.memBalance p ≥ s₁.disconnectThreshold := by
    rw [hmem, hdt]; exact not_le.mpr hpre
  have hnotpay : ¬ s₁.memBalance p + a ≤ -s₁.paymentThreshold := by
    rw [hmem, hpt]; exact not_le.mpr hnc
  have hAdd : s.Add env a p = ((s₁.updateBalance p a).1, none) := by
    rcases herr with h | h <;> subst h <;>
      · simp only [Swap.Add, hsl]
        rw [if_neg hnotged, hub]
        simp only []
        rw [if_neg hnotpay]
  rw [hAdd, hub]
  refine ⟨rfl, ?_, ?_, ?_, ?_, ?_, ?_, ?_⟩ <;>
    simp [alookup_aset, hmem, hst, hpt, hdt, Swap.effBalance]

/-- C3: the disconnect check is made on the pre-delta balance and the
payment check on the post-delta balance: an `Add` that moves the balance
from below to at-or-above the (positive) disconnect threshold still
succeeds, and only the following `Add` — with any amount — is rejected. -/
theorem add_disconnect_is_pre_delta_payment_post_delta (s : Swap) (env : Env)
    (a : Int) (p : PeerID)
    (hget : s.store.getBalanceFault p = none)
    (hput : s.store.putBalanceFault p = none)
    (hpay : 0 < s.paymentThreshold)
    (hpre : s.effBalance p < s.disconnectThreshold)
    (hpost : s.disconnectThreshold ≤ s.effBalance p + a)
    (hdis : 0 < s.disconnectThreshold) :
    (s.Add env a p).2 = none ∧
    (s.Add env a p).1.effBalance p = s.effBalance p + a ∧
    ∀ a₂, (((s.Add env a p).1).Add env a₂ p).2 =
        some (.disconnected p s.disconnectThreshold) ∧
      (((s.Add env a p).1).Add env a₂ p).1.effBalance p = s.effBalance p + a := by
  have hnc : -s.paymentThreshold < s.effBalance p + a := by
    calc -s.paymentThreshold < 0 := by omega
    _ < s.disconnectThreshold := hdis
    _ ≤ s.effBalance p + a := hpost
  obtain ⟨hok, hcp, _, heff, _, _, _, hdt⟩ := add_no_cheque s env a p hget hput hpre hnc
  refine ⟨hok, heff, fun a₂ => ?_⟩
  have hbal2 : ((s.Add env a p).1).disconnectThreshold ≤
      ((s.Add env a p).1).effBalance p := by
    rw [hdt, heff]; exact hpost
  obtain ⟨h1, h2, _⟩ :=
    add_disconnect_reject ((s.Add env a p).1) env a₂ p
      (Or.inl ⟨s.effBalance p + a, hcp⟩) hbal2
  exact ⟨by rw [h1, hdt], by rw [h2, heff]⟩

/-- Witness for C3 at the spec's concrete scenario: from balance -101,
`Add(+250)` crosses the disconnect threshold 100 and still succeeds; the
following `Add(-1)` is rejected. -/
theorem add_disconnect_is_pre_delta_witness :
    (({ swOK with balances := [("p", -101)] } : Swap).Add envOK 250 "p").2 = none ∧
    (({ swOK with balances := [("p", -101)] } : Swap).Add envOK 250 "p").1.effBalance "p" =
      ({ swOK with balances := [("p", -101)] } : Swap).effBalance "p" + 250 ∧
    ((((({ swOK with balances := [("p", -101)] } : Swap).Add envOK 250 "p").1)).Add envOK (-1) "p").2 =
      some (.disconnected "p" 100) ∧
    ((((({ swOK with balances := [("p", -101)] } : Swap).Add envOK 250 "p").1)).Add envOK (-1) "p").1.effBalance "p" =
      ({ swOK with balances := [("p", -101)] } : Swap).effBalance "p" + 250 := by
  obtain ⟨h1, h2, h3⟩ :=
    add_disconnect_is_pre_delta_payment_post_delta
      ({ swOK with balances := [("p", -101)] } : Swap) envOK 250 "p"
      (by decide) (by decide) (by decide) (by decide) (by decide) (by decide)
  exact ⟨h1, h2, (h3 (-1)).1, (h3 (-1)).2⟩

/-- Characterization of `createCheque` on the successful path: the
produced cheque follows the serial and cumulative-amount recurrence with
respect to the peer's effective last sent cheque, snapshots the honey
debt, and carries the issuer contract and the peer's beneficiary. -/
theorem createCheque_ok (s : Swap) (env : Env) (p : PeerID) (amt g : Nat)
    (hor : env.oracle (s.honeyOf p) = .ok amt)
    (hsig : env.sign
      { serial := nextSerial (s.effLast p), amount := nextAmount (s.effLast p) amt,
        timeout := defaultCashInDelay, contract := s.ownerContract,
        honey := s.honeyOf p } (env.beneficiary p) = .ok g) :
    s.createCheque env p = ((s.loadLastSentCheque p).1,
      .ok { params := { serial := nextSerial (s.effLast p),
                        amount := nextAmount (s.effLast p) amt,
                        timeout := defaultCashInDelay,
                        contract := s.ownerContract,
                        honey := s.honeyOf p },
            beneficiary := env.beneficiary p, sig := g }) := by
  obtain ⟨hc, _, _, _, _, _, _, hoc⟩ := loadLastSentCheque_spec s p
  rw [Swap.honeyOf] at hor hsig
  unfold Swap.createCheque
  simp only [Swap.honeyOf, hor, hc, Option.getD_some, hoc]
  cases hL : s.effLast p with
  | none =>
    simp only [hL, nextSerial, nextAmount] at hsig ⊢
    rw [hsig]
  | some lc =>
    simp only [hL, nextSerial, nextAmount] at hsig ⊢
    rw [hsig]

/-- `createCheque` never touches the balances, the store, the ghost
history, the thresholds or the owner contract. -/
theorem createCheque_preserves (s : Swap) (env : Env) (p : PeerID) :
    (s.createCheque env p).1.balances = s.balances ∧
    (s.createCheque env p).1.store = s.store ∧
    (s.createCheque env p).1.applied = s.applied ∧
    (s.createCheque env p).1.paymentThreshold = s.paymentThreshold ∧
    (s.createCheque env p).1.disconnectThreshold = s.disconnectThreshold ∧
    (s.createCheque env p).1.ownerContract = s.ownerContract := by
  obtain ⟨_, _, hb, hst, hap, hpt, hdt, hoc⟩ := loadLastSentCheque_spec s p
  unfold Swap.createCheque
  dsimp only
  repeat' split
  all_goals simp [hb, hst, hap, hpt, hdt, hoc]

/-- C10: when the peer's last cheque is not cached and the store read of
it fails for any reason — `ErrNotFound` or any other error — the failure
is silently discarded and treated as "no prior cheque": `createCheque`
does not abort, and the issued cheque has serial 1 and amount equal to
just the current converted amount. -/
theorem createCheque_ignores_cheque_load_error (s : Swap) (env : Env)
    (p : PeerID) (amt g : Nat) (e : Err)
    (hnc : alookup s.cheques p = none)
    (hget : s.store.getSentCheque p = .error e)
    (hor : env.oracle (s.honeyOf p) = .ok amt)
    (hsig : env.sign
      { serial := 1, amount := amt, timeout := defaultCashInDelay,
        contract := s.ownerContract, honey := s.honeyOf p }
      (env.beneficiary p) = .ok g) :
    ∃ c, (s.createCheque env p).2 = .ok c ∧
      c.params.serial = 1 ∧ c.params.amount = amt := by
  have hL : s.effLast p = none := by simp [Swap.effLast, hnc, hget]
  have := createCheque_ok s env p amt g hor
    (by rw [hL]; simpa [nextSerial, nextAmount] using hsig)
  refine ⟨_, by rw [this], ?_, ?_⟩ <;> simp [hL, nextSerial, nextAmount]

/-- Witness for C10 at a concrete input: the store read of the last
cheque fails with a hard (non-not-found) error, yet the produced cheque
has serial 1 and amount equal to the converted amount. -/
theorem createCheque_ignores_cheque_load_error_witness :
    ∃ c, (({ swOK with
        store := { stOK with
          sentCheques := [("p",
            { params := { serial := 4, amount := 77, timeout := 0, contract := 5,
                          honey := 9 }, beneficiary := 7, sig := 9 })],
          getChequeFault := fun q => if q = "p" then some "corrupt" else none },
        balances := [("p", -50)] } : Swap).createCheque envOK "p").2 = .ok c ∧
      c.params.serial = 1 ∧ c.params.amount = 50 :=
  createCheque_ignores_cheque_load_error _ envOK "p" 50 9 (.storeErr "corrupt")
    (by decide) (by rfl) (by rfl) (by rfl)

/-- Characterization of `sendCheque` on the path where the cheque is
created, recorded and the balance credited: the new cheque follows the
serial/amount recurrence, it becomes the peer's last sent cheque in cache
and store, the balance is credited by `int64(cheque.Amount)` — the
cheque's cumulative amount, not the amount converted for this cheque —
and the call returns the transport's outcome. -/
theorem sendCheque_ok (s : Swap) (env : Env) (p : PeerID) (amt g : Nat)
    (hor : env.oracle (s.honeyOf p) = .ok amt)
    (hsig : env.sign
      { serial := nextSerial (s.effLast p), amount := nextAmount (s.effLast p) amt,
        timeout := defaultCashInDelay, contract := s.ownerContract,
        honey := s.honeyOf p } (env.beneficiary p) = .ok g)
    (hputc : s.store.putChequeFault p = none)
    (hputb : s.store.putBalanceFault p = none) :
    ∃ c : Cheque,
      c.params.serial = nextSerial (s.effLast p) ∧
      c.params.amount = nextAmount (s.effLast p) amt ∧
      (s.createCheque env p).2 = .ok c ∧
      alookup ((s.sendCheque env p).1).cheques p = some (some c) ∧
      alookup ((s.sendCheque env p).1).store.sentCheques p = some c ∧
      ((s.sendCheque env p).1).effLast p = some c ∧
      ((s.sendCheque env p).1).balances =
        aset s.balances p (s.memBalance p + int64OfNat c.params.amount) ∧
      ((s.sendCheque env p).1).store.balances =
        aset s.store.balances p (s.memBalance p + int64OfNat c.params.amount) ∧
      ((s.sendCheque env p).1).applied = s.applied ++ [int64OfNat c.params.amount] ∧
      ((s.sendCheque env p).1).store.getBalanceFault = s.store.getBalanceFault ∧
      ((s.sendCheque env p).1).store.putBalanceFault = s.store.putBalanceFault ∧
      ((s.sendCheque env p).1).store.putChequeFault = s.store.putChequeFault ∧
      ((s.sendCheque env p).1).paymentThreshold = s.paymentThreshold ∧
      ((s.sendCheque env p).1).disconnectThreshold = s.disconnectThreshold ∧
      ((s.sendCheque env p).1).ownerContract = s.ownerContract ∧
      (s.sendCheque env p).2 = (match env.send with
        | .ok _ => none
        | .error e => some (.sendErr e)) := by
  obtain ⟨_, _, hb, hst, hap, hpt, hdt, hoc⟩ := loadLastSentCheque_spec s p
  have hcc := createCheque_ok s env p amt g hor hsig
  refine ⟨{ params := { serial := nextSerial (s.effLast p),
                        amount := nextAmount (s.effLast p) amt,
                        timeout := defaultCashInDelay,
                        contract := s.ownerContract,
                        honey := s.honeyOf p },
            beneficiary := env.beneficiary p, sig := g }, rfl, rfl, by rw [hcc], ?_⟩
  unfold Swap.sendCheque
  rw [hcc]
  dsimp only
  rw [show ((s.loadLastSentCheque p).1).store = s.store from hst]
  unfold StateStore.putSentCheque
  rw [hputc]
  dsimp only
  unfold Swap.resetBalance
  rw [updateBalance_fault_free _ p _ (by dsimp only; exact hputb)]
  cases henv : env.send <;>
    simp [alookup_aset, Swap.effLast, Swap.memBalance, hb, hap, hpt, hdt, hoc]

/-- Iterating `sendCheque` with a total oracle and signer advances the
peer's last-sent serial by exactly one per cheque, starting from
`nextSerial` of the initial last cheque, and preserves the store's
fault-freeness for the peer. -/
theorem sendN_serial_chain (env : Env) (p : PeerID)
    (horacle : ∀ h, ∃ a, env.oracle h = .ok a)
    (hsign : ∀ ps b, ∃ g, env.sign ps b = .ok g) :
    ∀ n (s : Swap), s.store.putChequeFault p = none →
      s.store.putBalanceFault p = none →
      (s.sendN env p n).store.putChequeFault p = none ∧
      (s.sendN env p n).store.putBalanceFault p = none ∧
      ((n = 0 ∧ (s.sendN env p n).effLast p = s.effLast p) ∨
       (1 ≤ n ∧ ∃ c, (s.sendN env p n).effLast p = some c ∧
          c.params.serial = nextSerial (s.effLast p) + (n - 1))) := by
  intro n
  induction n with
  | zero => intro s h1 h2; exact ⟨h1, h2, Or.inl ⟨rfl, rfl⟩⟩
  | succ n ih =>
    intro s h1 h2
    obtain ⟨hc1, hc2, hcase⟩ := ih s h1 h2
    set sn := s.sendN env p n with hsn
    obtain ⟨amt, hamt⟩ := horacle (sn.honeyOf p)
    obtain ⟨g, hg⟩ := hsign
      { serial := nextSerial (sn.effLast p), amount := nextAmount (sn.effLast p) amt,
        timeout := defaultCashInDelay, contract := sn.ownerContract,
        honey := sn.honeyOf p } (env.beneficiary p)
    obtain ⟨c, hser, _, _, _, _, heff, _, _, _, _, hpb, hpc, _, _, _, _⟩ :=
      sendCheque_ok sn env p amt g hamt hg hc1 hc2
    have hstep : s.sendN env p (n + 1) = (sn.sendCheque env p).1 := rfl
    refine ⟨by rw [hstep, hpc]; exact hc1, by rw [hstep, hpb]; exact hc2, Or.inr ⟨by omega, c, by rw [hstep]; exact heff, ?_⟩⟩
    rcases hcase with ⟨hn0, hsame⟩ | ⟨hn1, c', heffn, hsern⟩
    · subst hn0
      rw [hser, hsame]
      simp
    · rw [hser, heffn]
      simp only [nextSerial] at hsern ⊢
      omega

/-- C4: every cheque created by `createCheque` has serial equal to the
last-sent cheque's serial plus 1 (1 if the peer has no prior cheque) and
cumulative amount equal to the last cheque's amount plus the converted
amount for this cheque (just the converted amount if none); the created
cheque is recorded as the new last-sent cheque, so the serials issued to
a single peer form the strict sequence 1, 2, 3, … without resets or
skips. -/
theorem cheque_serials_strictly_sequential (s : Swap) (env : Env) (p : PeerID)
    (horacle : ∀ h, ∃ a, env.oracle h = .ok a)
    (hsign : ∀ ps b, ∃ g, env.sign ps b = .ok g)
    (hputc : s.store.putChequeFault p = none)
    (hputb : s.store.putBalanceFault p = none) :
    (∃ amt c, env.oracle (s.honeyOf p) = .ok amt ∧
       (s.createCheque env p).2 = .ok c ∧
       c.params.serial = nextSerial (s.effLast p) ∧
       c.params.amount = nextAmount (s.effLast p) amt ∧
       ((s.sendCheque env p).1).effLast p = some c) ∧
    (s.effLast p = none → ∀ n, 1 ≤ n →
       ∃ c', (s.sendN env p n).effLast p = some c' ∧ c'.params.serial = n) := by
  constructor
  · obtain ⟨amt, hamt⟩ := horacle (s.honeyOf p)
    obtain ⟨g, hg⟩ := hsign
      { serial := nextSerial (s.effLast p), amount := nextAmount (s.effLast p) amt,
        timeout := defaultCashInDelay, contract := s.ownerContract,
        honey := s.honeyOf p } (env.beneficiary p)
    obtain ⟨c, hser, hamo, hcr, _, _, heff, _⟩ :=
      sendCheque_ok s env p amt g hamt hg hputc hputb
    exact ⟨amt, c, hamt, hcr, hser, hamo, heff⟩
  · intro hnone n hn
    obtain ⟨_, _, hcase⟩ := sendN_serial_chain env p horacle hsign n s hputc hputb
    rcases hcase with ⟨hn0, _⟩ | ⟨_, c', heffn, hsern⟩
    · omega
    · refine ⟨c', heffn, ?_⟩
      rw [hsern, hnone]
      simp only [nextSerial]
      omega

/-- Witness for C4 at a concrete input: with a 1:1 oracle on a fresh
ledger, the first created cheque has serial 1 and cumulative amount equal
to the converted amount, and three successive cheques carry serials
1, 2, 3. -/
theorem cheque_serials_strictly_sequential_witness :
    (∃ amt c,
       envOK.oracle (({ swOK with balances := [("p", -50)] } : Swap).honeyOf "p") = .ok amt ∧
       (({ swOK with balances := [("p", -50)] } : Swap).createCheque envOK "p").2 = .ok c ∧
       c.params.serial =
         nextSerial (({ swOK with balances := [("p", -50)] } : Swap).effLast "p") ∧
       c.params.amount =
         nextAmount (({ swOK with balances := [("p", -50)] } : Swap).effLast "p") amt ∧
       ((({ swOK with balances := [("p", -50)] } : Swap).sendCheque envOK "p").1).effLast "p" = some c) ∧
    (({ swOK with balances := [("p", -50)] } : Swap).effLast "p" = none → ∀ n, 1 ≤ n →
       ∃ c', (({ swOK with balances := [("p", -50)] } : Swap).sendN envOK "p" n).effLast "p" = some c' ∧
         c'.params.serial = n) :=
  cheque_serials_strictly_sequential ({ swOK with balances := [("p", -50)] } : Swap)
    envOK "p" (fun h => ⟨h, rfl⟩) (fun _ _ => ⟨9, rfl⟩) rfl rfl

/-- C6 counterexample: a second cheque for a peer with a prior cheque of
cumulative amount 101 and a current honey debt of 50 (converted 1:1 to
50) credits the balance by the cumulative 151, taking it from -50 to 101
— not by the converted amount 50, which would have taken it to 0. -/
theorem sendCheque_credit_counterexample :
    ({ swOK with balances := [("p", -50)], cheques := [("p", some ({ params := { serial := 1, amount := 101, timeout := 0, contract := 5, honey := 101 }, beneficiary := 7, sig := 9 }))] } : Swap).honeyOf "p" = 50 ∧
    envOK.oracle 50 = .ok 50 ∧
    ((({ swOK with balances := [("p", -50)], cheques := [("p", some ({ params := { serial := 1, amount := 101, timeout := 0, contract := 5, honey := 101 }, beneficiary := 7, sig := 9 }))] } : Swap).sendCheque
        envOK "p").1).memBalance "p" = 101 ∧
    (101 : Int) ≠ -50 + 50 :=
  ⟨by decide, by rfl, by decide, by decide⟩

/-- C6 amended: on a recorded cheque issuance, `sendCheque` credits the
local balance by `int64(cheque.Amount)` — the cheque's cumulative amount,
i.e. the previous cheque's amount plus the amount converted for this
cheque — which coincides with the converted amount only when the peer had
no prior cheque. -/
theorem sendCheque_credits_cumulative_amount (s : Swap) (env : Env) (p : PeerID)
    (amt g : Nat)
    (hor : env.oracle (s.honeyOf p) = .ok amt)
    (hsig : env.sign
      { serial := nextSerial (s.effLast p), amount := nextAmount (s.effLast p) amt,
        timeout := defaultCashInDelay, contract := s.ownerContract,
        honey := s.honeyOf p } (env.beneficiary p) = .ok g)
    (hputc : s.store.putChequeFault p = none)
    (hputb : s.store.putBalanceFault p = none)
    (hsz : nextAmount (s.effLast p) amt < 2 ^ 63) :
    ((s.sendCheque env p).1).memBalance p =
      s.memBalance p + (nextAmount (s.effLast p) amt : Int) := by
  obtain ⟨c, _, hamo, _, _, _, _, hbal, _⟩ :=
    sendCheque_ok s env p amt g hor hsig hputc hputb
  rw [Swap.memBalance, hbal, alookup_aset, if_pos rfl, Option.getD_some,
    hamo, int64OfNat_of_lt hsz]

/-- Witness for the amended C6 at the counterexample input: the credit is
the cumulative amount 151, taking the balance from -50 to 101. -/
theorem sendCheque_credits_cumulative_amount_witness :
    ((({ swOK with balances := [("p", -50)], cheques := [("p", some ({ params := { serial := 1, amount := 101, timeout := 0, contract := 5, honey := 101 }, beneficiary := 7, sig := 9 }))] } : Swap).sendCheque
        envOK "p").1).memBalance "p" =
      ({ swOK with balances := [("p", -50)], cheques := [("p", some ({ params := { serial := 1, amount := 101, timeout := 0, contract := 5, honey := 101 }, beneficiary := 7, sig := 9 }))] } : Swap).memBalance "p" +
        (nextAmount (({ swOK with balances := [("p", -50)], cheques := [("p", some ({ params := { serial := 1, amount := 101, timeout := 0, contract := 5, honey := 101 }, beneficiary := 7, sig := 9 }))] } : Swap).effLast "p") 50 : Int) :=
  sendCheque_credits_cumulative_amount _ envOK "p" 50 9 (by rfl) (by rfl) rfl rfl
    (by decide)

/-- `createCheque` aborts with the oracle's error when price conversion
fails, leaving the state untouched. -/
theorem createCheque_oracle_error (s : Swap) (env : Env) (p : PeerID) (e : String)
    (hor : env.oracle (s.honeyOf p) = .error e) :
    s.createCheque env p = (s, .error (.oracleErr e)) := by
  rw [Swap.honeyOf] at hor
  unfold Swap.createCheque
  simp only [hor]

/-- `sendCheque` returns the oracle's error when price conversion fails,
leaving the state untouched. -/
theorem sendCheque_oracle_error (s : Swap) (env : Env) (p : PeerID) (e : String)
    (hor : env.oracle (s.honeyOf p) = .error e) :
    s.sendCheque env p = (s, some (.oracleErr e)) := by
  unfold Swap.sendCheque
  rw [createCheque_oracle_error s env p e hor]

/-- `sendCheque` returns the store error when persisting the new cheque
fails; the balance is not credited in that case. -/
theorem sendCheque_putc_fault (s : Swap) (env : Env) (p : PeerID) (amt g : Nat)
    (e : String)
    (hor : env.oracle (s.honeyOf p) = .ok amt)
    (hsig : env.sign
      { serial := nextSerial (s.effLast p), amount := nextAmount (s.effLast p) amt,
        timeout := defaultCashInDelay, contract := s.ownerContract,
        honey := s.honeyOf p } (env.beneficiary p) = .ok g)
    (hputc : s.store.putChequeFault p = some e) :
    (s.sendCheque env p).2 = some (.storeErr e) ∧
    (s.sendCheque env p).1.balances = s.balances ∧
    (s.sendCheque env p).1.store.balances = s.store.balances ∧
    (s.sendCheque env p).1.applied = s.applied := by
  obtain ⟨_, _, hb, hst, hap, _, _, _⟩ := loadLastSentCheque_spec s p
  have hcc := createCheque_ok s env p amt g hor hsig
  unfold Swap.sendCheque
  rw [hcc]
  dsimp only
  rw [show ((s.loadLastSentCheque p).1).store = s.store from hst]
  unfold StateStore.putSentCheque
  rw [hputc]
  simp [hb, hst, hap]

/-- When the balance store calls succeed, the pre-delta balance is under
the disconnect threshold and the post-delta balance crosses the negative
payment threshold, `Add` reduces to `sendCheque` on the updated state. -/
theorem add_cheque_branch (s : Swap) (env : Env) (a : Int) (p : PeerID)
    (hget : s.store.getBalanceFault p = none)
    (hput : s.store.putBalanceFault p = none)
    (hpre : s.effBalance p < s.disconnectThreshold)
    (hcross : s.effBalance p + a ≤ -s.paymentThreshold) :
    ∃ s₂ : Swap, s.Add env a p = s₂.sendCheque env p ∧
      alookup s₂.balances p = some (s.effBalance p + a) ∧
      s₂.memBalance p = s.effBalance p + a ∧
      s₂.effBalance p = s.effBalance p + a ∧
      s₂.cheques = s.cheques ∧
      s₂.applied = s.applied ++ [a] ∧
      s₂.store.balances = aset s.store.balances p (s.effBalance p + a) ∧
      s₂.store.sentCheques = s.store.sentCheques ∧
      s₂.store.getBalanceFault = s.store.getBalanceFault ∧
      s₂.store.putBalanceFault = s.store.putBalanceFault ∧
      s₂.store.getChequeFault = s.store.getChequeFault ∧
      s₂.store.putChequeFault = s.store.putChequeFault ∧
      s₂.paymentThreshold = s.paymentThreshold ∧
      s₂.disconnectThreshold = s.disconnectThreshold ∧
      s₂.ownerContract = s.ownerContract ∧
      s₂.effLast p = s.effLast p := by
  obtain ⟨herr, hcp, _, hst, hch, hap, hpt, hdt, hoc⟩ := loadBalance_fault_free s p hget
  rcases hsl : s.loadBalance p with ⟨s₁, lerr⟩
  simp only [hsl] at herr hcp hst hch hap hpt hdt hoc
  have hmem : s₁.memBalance p = s.effBalance p := by simp [Swap.memBalance, hcp]
  have hub := updateBalance_fault_free s₁ p a (by rw [hst]; exact hput)
  have hnotged : ¬ s₁.memBalance p ≥ s₁.disconnectThreshold := by
    rw [hmem, hdt]; exact not_le.mpr hpre
  have hpay : s₁.memBalance p + a ≤ -s₁.paymentThreshold := by
    rw [hmem, hpt]; exact hcross
  have hAdd : s.Add env a p = ((s₁.updateBalance p a).1).sendCheque env p := by
    rcases herr with h | h <;> subst h <;>
      · simp only [Swap.Add, hsl]
        rw [if_neg hnotged, hub]
        simp only []
        rw [if_pos hpay]
  refine ⟨(s₁.updateBalance p a).1, hAdd, ?_⟩
  rw [hub]
  refine ⟨?_, ?_, ?_, ?_, ?_, ?_, ?_, ?_, ?_, ?_, ?_, ?_, ?_, ?_, ?_⟩ <;>
    simp [alookup_aset, hcp, hmem, hst, hch, hap, hpt, hdt, hoc, Swap.memBalance,
      Swap.effBalance, Swap.effLast, StateStore.getSentCheque]

/-- C5 counterexample: from a fresh ledger, `Add(-101)` crosses the
payment threshold; the price oracle fails, and `Add` returns that error
to its caller — it does not return nil.  (The applied delta is indeed
kept: the balance is -101.)  The naked `return` of the named `err` in the
source propagates the cheque failure. -/
theorem add_returns_cheque_failure_counterexample :
    (swOK.Add { envOK with oracle := fun _ => .error "oracle down" } (-101) "p").2 =
      some (.oracleErr "oracle down") ∧
    (swOK.Add { envOK with oracle := fun _ => .error "oracle down" } (-101) "p").2 ≠
      none ∧
    (swOK.Add { envOK with
      oracle := fun _ => .error "oracle down" } (-101) "p").1.memBalance "p" = -101 :=
  ⟨by decide, by decide, by decide⟩

/-- C5 amended: when an `Add` crossing the payment threshold hits a
cheque failure — price-conversion error, cheque-store error, or send
error — `Add` returns that error to its caller (instead of the claimed
nil), while the balance change applied by this `Add` is indeed not rolled
back (and a failed send leaves the cheque credit applied as well). -/
theorem add_returns_cheque_failure_and_keeps_delta (s : Swap) (env : Env)
    (a : Int) (p : PeerID)
    (hget : s.store.getBalanceFault p = none)
    (hput : s.store.putBalanceFault p = none)
    (hpre : s.effBalance p < s.disconnectThreshold)
    (hcross : s.effBalance p + a ≤ -s.paymentThreshold) :
    (∀ e, env.oracle (uint64OfInt (-(s.effBalance p + a))) = .error e →
       (s.Add env a p).2 = some (.oracleErr e) ∧
       (s.Add env a p).1.effBalance p = s.effBalance p + a) ∧
    (∀ amt g e, env.oracle (uint64OfInt (-(s.effBalance p + a))) = .ok amt →
       (∀ ps b, env.sign ps b = .ok g) →
       s.store.putChequeFault p = some e →
       (s.Add env a p).2 = some (.storeErr e) ∧
       (s.Add env a p).1.effBalance p = s.effBalance p + a) ∧
    (∀ amt g e, env.oracle (uint64OfInt (-(s.effBalance p + a))) = .ok amt →
       (∀ ps b, env.sign ps b = .ok g) →
       s.store.putChequeFault p = none →
       env.send = .error e →
       (s.Add env a p).2 = some (.sendErr e) ∧
       (s.Add env a p).1.effBalance p =
         s.effBalance p + a + int64OfNat (nextAmount (s.effLast p) amt)) := by
  obtain ⟨s₂, hAdd, hal, hmem2, heff2, _, _, _, _, _, hgf, _, hpc, _, _, _, hel⟩ :=
    add_cheque_branch s env a p hget hput hpre hcross
  have hhoney : s₂.honeyOf p = uint64OfInt (-(s.effBalance p + a)) := by
    rw [Swap.honeyOf, hmem2]
  refine ⟨?_, ?_, ?_⟩
  · intro e hor
    rw [hAdd, sendCheque_oracle_error s₂ env p e (by rw [hhoney]; exact hor)]
    exact ⟨rfl, heff2⟩
  · intro amt g e hor hsig hputc
    obtain ⟨h1, h2, _, _⟩ := sendCheque_putc_fault s₂ env p amt g e
      (by rw [hhoney]; exact hor) (hsig _ _) (by rw [hpc]; exact hputc)
    refine ⟨by rw [hAdd]; exact h1, ?_⟩
    rw [hAdd, Swap.effBalance, h2, hal]
  · intro amt g e hor hsig hputc hsend
    obtain ⟨c, _, hamo, _, _, _, _, hbal, _, _, _, _, _, _, _, _, herr⟩ :=
      sendCheque_ok s₂ env p amt g (by rw [hhoney]; exact hor) (hsig _ _)
        (by rw [hpc]; exact hputc) (by rw [hgf] at *; assumption)
    constructor
    · rw [hAdd, herr, hsend]
    · rw [hAdd, Swap.effBalance, hbal, alookup_aset, if_pos rfl, hmem2, hamo, hel]

/-- C7 counterexample: the stored balance is 7 and the balance `Put`
fails with "disk full".  `Add(5)` returns the store error, the store
still holds 7 — but the in-memory balance has already been updated to 12:
the ledger operation does have a partial effect, contradicting the claim
that the in-memory balance equals its value before the call. -/
theorem add_store_error_partial_effect_counterexample :
    (({ swOK with store := { stOK with balances := [("p", 7)], putBalanceFault := fun q => if q = "p" then some "disk full" else none } } : Swap).Add envOK 5 "p").2 = some (.storeErr "disk full") ∧
    (({ swOK with store := { stOK with balances := [("p", 7)], putBalanceFault := fun q => if q = "p" then some "disk full" else none } } : Swap).Add envOK 5 "p").1.memBalance "p" = 12 ∧
    alookup (({ swOK with store := { stOK with balances := [("p", 7)], putBalanceFault := fun q => if q = "p" then some "disk full" else none } } : Swap).Add envOK 5 "p").1.store.balances "p" = some 7 ∧
    (12 : Int) ≠ 7 :=
  ⟨by decide, by decide, by decide, by decide⟩

/-- C7 amended: on a hard store error `Add` returns that error and the
stored balance is unchanged (the whole store is unchanged), but the
in-memory cache is not: on a read error the peer is cached at zero, and
on a write error the delta remains applied in memory. -/
theorem add_store_error_returns_error_store_unchanged (s : Swap) (env : Env)
    (a : Int) (p : PeerID) (e : String) :
    (alookup s.balances p = none → s.store.getBalanceFault p = some e →
       (s.Add env a p).2 = some (.storeErr e) ∧
       (s.Add env a p).1.store = s.store ∧
       alookup (s.Add env a p).1.balances p = some 0) ∧
    (s.store.getBalanceFault p = none → s.store.putBalanceFault p = some e →
       s.effBalance p < s.disconnectThreshold →
       (s.Add env a p).2 = some (.storeErr e) ∧
       (s.Add env a p).1.store = s.store ∧
       alookup (s.Add env a p).1.balances p = some (s.effBalance p + a)) := by
  constructor
  · intro hc hfault
    simp [Swap.Add, Swap.loadBalance, StateStore.getBalance, hc, hfault,
      alookup_aset]
  · intro hget hfault hpre
    obtain ⟨herr, hcp, _, hst, _, _, _, hdt, _⟩ := loadBalance_fault_free s p hget
    rcases hsl : s.loadBalance p with ⟨s₁, lerr⟩
    simp only [hsl] at herr hcp hst hdt
    have hmem : s₁.memBalance p = s.effBalance p := by simp [Swap.memBalance, hcp]
    have hub := updateBalance_fault s₁ p a e (by rw [hst]; exact hfault)
    have hnotged : ¬ s₁.memBalance p ≥ s₁.disconnectThreshold := by
      rw [hmem, hdt]; exact not_le.mpr hpre
    have hAdd : s.Add env a p =
        ((s₁.updateBalance p a).1, some (.storeErr e)) := by
      rcases herr with h | h <;> subst h <;>
        · simp only [Swap.Add, hsl]
          rw [if_neg hnotged, hub]
    rw [hAdd, hub]
    exact ⟨rfl, hst, by simp [alookup_aset, hmem]⟩

/-- Witness for the amended C7 at the counterexample input: the error is
returned, the store is unchanged, and the cache holds the updated 12. -/
theorem add_store_error_returns_error_store_unchanged_witness :
    (({ swOK with store := { stOK with balances := [("p", 7)], putBalanceFault := fun q => if q = "p" then some "disk full" else none } } : Swap).Add envOK 5 "p").2 = some (.storeErr "disk full") ∧
    (({ swOK with store := { stOK with balances := [("p", 7)], putBalanceFault := fun q => if q = "p" then some "disk full" else none } } : Swap).Add envOK 5 "p").1.store = ({ swOK with store := { stOK with balances := [("p", 7)], putBalanceFault := fun q => if q = "p" then some "disk full" else none } } : Swap).store ∧
    alookup (({ swOK with store := { stOK with balances := [("p", 7)], putBalanceFault := fun q => if q = "p" then some "disk full" else none } } : Swap).Add envOK 5 "p").1.balances "p" = some (({ swOK with store := { stOK with balances := [("p", 7)], putBalanceFault := fun q => if q = "p" then some "disk full" else none } } : Swap).effBalance "p" + 5) :=
  (add_store_error_returns_error_store_unchanged _ envOK 5 "p" "disk full").2
    rfl (by rfl) (by decide)

/-- Exhausting a block of try indices `s, …, s+n-1` (all ≥ 1, so each is
preceded by a sleep) whose attempts all fail leaves the last error in
`err`, adds `n` attempts and `n` sleeps, and can only keep or zero the
`addr` variable. -/
theorem go_range'_all_fail (b : Backend) (errf : Nat → String) :
    ∀ n s addr err att slp, 1 ≤ s →
      (∀ i, s ≤ i → i < s + n → attemptResult b i = .error (errf i)) →
      ∃ addr', (addr' = addr ∨ addr' = 0) ∧
        deployLoopGo b (List.range' s n) addr err att slp =
          (addr', if n = 0 then err else some (errf (s + n - 1)),
           att + n, slp + n) := by
  intro n
  induction n with
  | zero =>
    intro s addr err att slp hs _
    exact ⟨addr, Or.inl rfl, by simp [deployLoopGo]⟩
  | succ n ih =>
    intro s addr err att slp hs hfails
    have h := hfails s (Nat.le_refl s) (by omega)
    rw [List.range'_succ]
    unfold attemptResult at h
    cases hd : b.deployTx s with
    | error e =>
      rw [hd] at h
      injection h with he
      obtain ⟨addr', hor, hres⟩ := ih (s + 1) addr (some e) (att + 1) (slp + 1)
        (by omega) (fun i h1 h2 => hfails i (by omega) (by omega))
      refine ⟨addr', hor, ?_⟩
      simp only [deployLoopGo, hd, if_pos (show 0 < s by omega)]
      rw [hres]
      cases n with
      | zero => simp [he]
      | succ m =>
        have hidx : s + 1 + (m + 1) - 1 = s + (m + 1 + 1) - 1 := by omega
        have hatt : att + 1 + (m + 1) = att + (m + 1 + 1) := by omega
        have hslp : slp + 1 + (m + 1) = slp + (m + 1 + 1) := by omega
        simp [hidx, hatt, hslp]
    | ok tx =>
      rw [hd] at h
      dsimp only at h
      obtain ⟨addr', hor, hres⟩ := ih (s + 1) 0 (some (errf s)) (att + 1) (slp + 1)
        (by omega) (fun i h1 h2 => hfails i (by omega) (by omega))
      refine ⟨addr', ?_, ?_⟩
      · rcases hor with h0 | h0 <;> exact Or.inr h0
      · simp only [deployLoopGo, hd, h, if_pos (show 0 < s by omega)]
        rw [hres]
        cases n with
        | zero => simp
        | succ m =>
          have hidx : s + 1 + (m + 1) - 1 = s + (m + 1 + 1) - 1 := by omega
          have hatt : att + 1 + (m + 1) = att + (m + 1 + 1) := by omega
          have hslp : slp + 1 + (m + 1) = slp + (m + 1 + 1) := by omega
          simp [hidx, hatt, hslp]

/-- Running through try indices `s, …, s+n-1` (all ≥ 1) when the first
`K` attempts fail and attempt `K` succeeds, with `s ≤ K < s + n`, returns
the deployed address with no error after `K - s + 1` further attempts and
as many sleeps. -/
theorem go_range'_succeed (b : Backend) (errf : Nat → String) (K A : Nat)
    (hfail : ∀ i, i < K → attemptResult b i = .error (errf i))
    (hok : attemptResult b K = .ok A) :
    ∀ n s addr err att slp, 1 ≤ s → s ≤ K → K < s + n →
      deployLoopGo b (List.range' s n) addr err att slp =
        (A, none, att + (K - s) + 1, slp + (K - s) + 1) := by
  intro n
  induction n with
  | zero => intro s addr err att slp _ hsk hkn; omega
  | succ n ih =>
    intro s addr err att slp hs hsk hkn
    rw [List.range'_succ]
    by_cases hsK : s = K
    · subst hsK
      unfold attemptResult at hok
      cases hd : b.deployTx s with
      | error e => rw [hd] at hok; exact absurd hok (by simp)
      | ok tx =>
        rw [hd] at hok
        dsimp only at hok
        simp only [deployLoopGo, hd, hok, if_pos (show 0 < s by omega)]
        simp [Nat.sub_self]
    · have hslt : s < K := by omega
      have h := hfail s hslt
      unfold attemptResult at h
      cases hd : b.deployTx s with
      | error e =>
        rw [hd] at h
        dsimp only at h
        have hres := ih (s + 1) addr (some e) (att + 1) (slp + 1) (by omega)
          (by omega) (by omega)
        simp only [deployLoopGo, hd, if_pos (show 0 < s by omega)]
        rw [hres]
        simp only [Prod.mk.injEq]
        exact ⟨trivial, trivial, by omega, by omega⟩
      | ok tx =>
        rw [hd] at h
        dsimp only at h
        have hres := ih (s + 1) 0 (some (errf s)) (att + 1) (slp + 1) (by omega)
          (by omega) (by omega)
        simp only [deployLoopGo, hd, h, if_pos (show 0 < s by omega)]
        rw [hres]
        simp only [Prod.mk.injEq]
        exact ⟨trivial, trivial, by omega, by omega⟩

/-- With every attempt failing, `deployLoop` makes exactly `retries`
attempts, sleeps before every attempt after the first, and returns the
last attempt's error with the zero address. -/
theorem deployLoop_all_fail (b : Backend) (errf : Nat → String) (retries : Nat)
    (hpos : 1 ≤ retries)
    (hfails : ∀ i, i < retries → attemptResult b i = .error (errf i)) :
    deployLoop b retries = (0, some (errf (retries - 1)), retries, retries - 1) := by
  obtain ⟨m, rfl⟩ : ∃ m, retries = m + 1 := ⟨retries - 1, by omega⟩
  unfold deployLoop
  rw [List.range_eq_range', List.range'_succ]
  have h0 := hfails 0 (by omega)
  unfold attemptResult at h0
  cases hd : b.deployTx 0 with
  | error e =>
    rw [hd] at h0
    injection h0 with he
    obtain ⟨addr', hor, hres⟩ := go_range'_all_fail b errf m 1 0 (some e) 1 0
      (by omega) (fun i h1 h2 => hfails i (by omega))
    simp only [deployLoopGo, hd, if_neg (show ¬ (0:Nat) < 0 by omega)]
    rw [hres]
    rcases hor with h0' | h0' <;> subst h0' <;>
      cases m with
      | zero => simp [he]
      | succ j =>
        have hidx : 1 + (j + 1) - 1 = j + 1 + 1 - 1 := by omega
        have hatt : 1 + (j + 1) = j + 1 + 1 := by omega
        simp [hidx, hatt]
  | ok tx =>
    rw [hd] at h0
    dsimp only at h0
    obtain ⟨addr', hor, hres⟩ := go_range'_all_fail b errf m 1 0 (some (errf 0)) 1 0
      (by omega) (fun i h1 h2 => hfails i (by omega))
    simp only [deployLoopGo, hd, h0, if_neg (show ¬ (0:Nat) < 0 by omega)]
    rw [hres]
    rcases hor with h0' | h0' <;> subst h0' <;>
      cases m with
      | zero => simp
      | succ j =>
        have hidx : 1 + (j + 1) - 1 = j + 1 + 1 - 1 := by omega
        have hatt : 1 + (j + 1) = j + 1 + 1 := by omega
        simp [hidx, hatt]

/-- With the first `k` attempts failing and attempt `k` succeeding inside
the retry bound, `deployLoop` returns the deployed address with no error
after `k + 1` attempts and `k` sleeps. -/
theorem deployLoop_succeed (b : Backend) (errf : Nat → String) (k A retries : Nat)
    (hfail : ∀ i, i < k → attemptResult b i = .error (errf i))
    (hok : attemptResult b k = .ok A)
    (hk : k < retries) :
    deployLoop b retries = (A, none, k + 1, k) := by
  obtain ⟨m, rfl⟩ : ∃ m, retries = m + 1 := ⟨retries - 1, by omega⟩
  unfold deployLoop
  rw [List.range_eq_range', List.range'_succ]
  by_cases hk0 : k = 0
  · subst hk0
    unfold attemptResult at hok
    cases hd : b.deployTx 0 with
    | error e => rw [hd] at hok; exact absurd hok (by simp)
    | ok tx =>
      rw [hd] at hok
      dsimp only at hok
      simp [deployLoopGo, hd, hok]
  · have h0 := hfail 0 (by omega)
    unfold attemptResult at h0
    cases hd : b.deployTx 0 with
    | error e =>
      rw [hd] at h0
      have hres := go_range'_succeed b errf k A hfail hok m 1 0 (some e) 1 0
        (by omega) (by omega) (by omega)
      simp only [deployLoopGo, hd, if_neg (show ¬ (0:Nat) < 0 by omega)]
      rw [hres]
      simp only [Prod.mk.injEq]
      exact ⟨trivial, trivial, by omega, by omega⟩
    | ok tx =>
      rw [hd] at h0
      dsimp only at h0
      have hres := go_range'_succeed b errf k A hfail hok m 1 0 (some (errf 0)) 1 0
        (by omega) (by omega) (by omega)
      simp only [deployLoopGo, hd, h0, if_neg (show ¬ (0:Nat) < 0 by omega)]
      rw [hres]
      simp only [Prod.mk.injEq]
      exact ⟨trivial, trivial, by omega, by omega⟩

/-- C8: with a backend failing exactly `k` times then succeeding, the
deploy routine succeeds if and only if `k` is under the retry bound (and
then makes `k + 1` attempts with `k` sleeps); with an always-failing
backend it makes exactly `retries` attempts, sleeps before every attempt
after the first, and returns the last attempt's error unmodified. -/
theorem deployLoop_retry_bound (b : Backend) (retries k A : Nat)
    (errf : Nat → String) (hpos : 1 ≤ retries) :
    ((∀ i, i < k → attemptResult b i = .error (errf i)) →
     attemptResult b k = .ok A →
     (((deployLoop b retries).2.1 = none) ↔ k < retries) ∧
     (k < retries → deployLoop b retries = (A, none, k + 1, k))) ∧
    ((∀ i, attemptResult b i = .error (errf i)) →
     deployLoop b retries = (0, some (errf (retries - 1)), retries, retries - 1)) := by
  constructor
  · intro hfail hok
    constructor
    · constructor
      · intro hnone
        by_contra hge
        push_neg at hge
        have hall := deployLoop_all_fail b errf retries hpos
          (fun i hi => hfail i (by omega))
        rw [hall] at hnone
        simp at hnone
      · intro hk
        rw [deployLoop_succeed b errf k A retries hfail hok hk]
    · intro hk
      exact deployLoop_succeed b errf k A retries hfail hok hk
  · intro hall
    exact deployLoop_all_fail b errf retries hpos (fun i _ => hall i)

/-- Witness for C8 at concrete backends: one failing twice then deploying
at address 3 (success within bound 5, 3 attempts, 2 sleeps), and one
always failing (5 attempts, 4 sleeps, last error returned). -/
theorem deployLoop_retry_bound_witness :
    ((((deployLoop { deployTx := fun i => if i < 2 then .error "e" else .ok 3, waitDeployed := fun _ tx => .ok tx } 5).2.1 = none) ↔ 2 < 5) ∧
     (2 < 5 → deployLoop { deployTx := fun i => if i < 2 then .error "e" else .ok 3, waitDeployed := fun _ tx => .ok tx } 5 = (3, none, 3, 2))) ∧
    deployLoop { deployTx := fun _ => .error "e", waitDeployed := fun _ tx => .ok tx } 5 = (0, some "e", 5, 4) :=
  ⟨(deployLoop_retry_bound _ 5 2 3 (fun _ => "e") (by omega)).1
      (fun i hi => by interval_cases i <;> rfl) rfl,
   (deployLoop_retry_bound _ 5 0 0 (fun _ => "e") (by omega)).2 (fun _ => rfl)⟩

/-- Witness for the amended C5 at a concrete input: a failed price
conversion makes `Add` return the oracle error while the -101 delta stays
applied. -/
theorem add_returns_cheque_failure_and_keeps_delta_witness :
    (swOK.Add { envOK with oracle := fun _ => .error "oracle down" } (-101) "p").2 =
      some (.oracleErr "oracle down") ∧
    (swOK.Add { envOK with
        oracle := fun _ => .error "oracle down" } (-101) "p").1.effBalance "p" =
      swOK.effBalance "p" + (-101) :=
  (add_returns_cheque_failure_and_keeps_delta swOK
      { envOK with oracle := fun _ => .error "oracle down" } (-101) "p"
      rfl rfl (by decide) (by decide)).1 "oracle down" (by rfl)

/-- An association-list lookup succeeds exactly when the key occurs among
the list's keys. -/
theorem alookup_isSome_mem {β : Type} (l : List (PeerID × β)) (q : PeerID) :
    (alookup l q).isSome = true ↔ q ∈ l.map Prod.fst := by
  induction l with
  | nil => simp [alookup]
  | cons hd t ih =>
    obtain ⟨k, v⟩ := hd
    by_cases hk : k = q
    · subst hk
      simp [alookup]
    · simp only [alookup, if_neg hk, List.map_cons, List.mem_cons]
      rw [ih]
      constructor
      · exact Or.inr
      · rintro (h | h)
        · exact absurd h.symm hk
        · exact h

/-- C9: `BalancePeers` returns exactly the union of the in-memory peers
and the peers enumerable from the store's balance-key namespace, with
each peer appearing exactly once. -/
theorem balance_peers_is_deduplicated_union (s : Swap)
    (hkeys : s.store.keysFault = none)
    (hmem_nodup : (s.balances.map Prod.fst).Nodup)
    (hstore_nodup : (s.store.balances.map Prod.fst).Nodup) :
    ∃ l, s.BalancePeers = .ok l ∧ l.Nodup ∧
      ∀ q, q ∈ l ↔
        ((alookup s.balances q).isSome = true ∨
         (alookup s.store.balances q).isSome = true) := by
  have hmapid : (s.store.balances.map (fun e => balanceKey e.1)).map
      (fun k => keyToID k balancePre) = s.store.balances.map Prod.fst := by
    rw [List.map_map]
    simp [Function.comp, keyToID_balanceKey]
  have hBP : s.BalancePeers = .ok ((s.balances.map Prod.fst) ++
      ((s.store.balances.map (fun e => balanceKey e.1)).map
        (fun k => keyToID k balancePre)).filter
          (fun pid => !((s.balances.map Prod.fst).contains pid))) := by
    simp only [Swap.BalancePeers, StateStore.keysBalance, hkeys]
  refine ⟨_, hBP, ?_, ?_⟩
  · rw [List.nodup_append]
    refine ⟨hmem_nodup, ?_, ?_⟩
    · rw [hmapid]
      exact hstore_nodup.filter _
    · intro q hq hq2
      rw [hmapid] at hq2
      have hflt := List.of_mem_filter hq2
      simp [hq] at hflt
  · intro q
    rw [List.mem_append, hmapid, alookup_isSome_mem, alookup_isSome_mem]
    constructor
    · rintro (h | h)
      · exact Or.inl h
      · exact Or.inr (List.mem_of_mem_filter h)
    · rintro (h | h)
      · exact Or.inl h
      · by_cases hm : q ∈ s.balances.map Prod.fst
        · exact Or.inl hm
        · refine Or.inr (List.mem_filter.mpr ⟨h, ?_⟩)
          simp [hm]

/-- Witness for C9 at a concrete input: cache peers b, c and store peers
a, b produce the de-duplicated union. -/
theorem balance_peers_is_deduplicated_union_witness :
    ∃ l, ({ swOK with store := { stOK with balances := [("a", 1), ("b", 2)] }, balances := [("b", 5), ("c", 6)] } : Swap).BalancePeers = .ok l ∧ l.Nodup ∧
      ∀ q, q ∈ l ↔
        ((alookup ([("b", 5), ("c", 6)] : List (PeerID × Int)) q).isSome = true ∨
         (alookup ([("a", 1), ("b", 2)] : List (PeerID × Int)) q).isSome = true) :=
  balance_peers_is_deduplicated_union _ rfl (by decide) (by decide)

/-- Balance-relevant effect of `sendCheque`, for any oracle, signer,
cheque-store and transport outcome, when the balance `Put` cannot fail:
either the balances, their persisted copies and the ghost history are
untouched (the cheque path aborted before `resetBalance`), or one credit
delta was applied and persisted.  The store's balance fault switches are
never touched. -/
theorem sendCheque_balance_effect (s : Swap) (env : Env) (p : PeerID)
    (hputb : s.store.putBalanceFault p = none) :
    ((s.sendCheque env p).1.balances = s.balances ∧
     (s.sendCheque env p).1.store.balances = s.store.balances ∧
     (s.sendCheque env p).1.applied = s.applied ∨
     ∃ d, (s.sendCheque env p).1.balances = aset s.balances p (s.memBalance p + d) ∧
       (s.sendCheque env p).1.store.balances =
         aset s.store.balances p (s.memBalance p + d) ∧
       (s.sendCheque env p).1.applied = s.applied ++ [d]) ∧
    (s.sendCheque env p).1.store.getBalanceFault = s.store.getBalanceFault ∧
    (s.sendCheque env p).1.store.putBalanceFault = s.store.putBalanceFault := by
  obtain ⟨hb, hsto, hap, _, _, _⟩ := createCheque_preserves s env p
  rcases hcc : s.createCheque env p with ⟨s₁, r⟩
  simp only [hcc] at hb hsto hap
  cases r with
  | error e =>
    simp only [Swap.sendCheque, hcc]
    exact ⟨Or.inl ⟨hb, by rw [hsto], by rw [hap]⟩, by rw [hsto], by rw [hsto]⟩
  | ok c =>
    simp only [Swap.sendCheque, hcc]
    rcases hput : StateStore.putSentCheque
        ({ s₁ with cheques := aset s₁.cheques p (some c) }).store p c with ⟨st, perr⟩
    have hstfields : st.balances = s.store.balances ∧
        st.getBalanceFault = s.store.getBalanceFault ∧
        st.putBalanceFault = s.store.putBalanceFault := by
      unfold StateStore.putSentCheque at hput
      rcases hf : ({ s₁ with cheques := aset s₁.cheques p (some c) }).store.putChequeFault p with _ | e
      · rw [hf] at hput
        injection hput with h1 _
        rw [← h1, hsto]
        exact ⟨rfl, rfl, rfl⟩
      · rw [hf] at hput
        injection hput with h1 _
        rw [← h1, hsto]
        exact ⟨rfl, rfl, rfl⟩
    obtain ⟨hstb, hstg, hstp⟩ := hstfields
    cases perr with
    | some e =>
      simp only [hput]
      exact ⟨Or.inl ⟨hb, hstb, hap⟩, hstg, hstp⟩
    | none =>
      simp only [hput]
      have hub := updateBalance_fault_free
        ({ s₁ with cheques := aset s₁.cheques p (some c), store := st }) p
        (int64OfNat c.params.amount) (by simpa [hstp] using hputb)
      unfold Swap.resetBalance
      rw [hub]
      have hmem : ({ s₁ with cheques := aset s₁.cheques p (some c), store := st } : Swap).memBalance p = s.memBalance p := by
        simp [Swap.memBalance, hb]
      cases env.send with
      | ok u =>
        refine ⟨Or.inr ⟨int64OfNat c.params.amount, ?_, ?_, ?_⟩, ?_, ?_⟩ <;>
          simp [Swap.memBalance, hb, hstb, hap, hstg, hstp]
      | error e =>
        refine ⟨Or.inr ⟨int64OfNat c.params.amount, ?_, ?_, ?_⟩, ?_, ?_⟩ <;>
          simp [Swap.memBalance, hb, hstb, hap, hstg, hstp]

/-- Balance-relevant effect of one `Add` call when the balance store
calls cannot fail: either the call was rejected at the disconnect
threshold (cache filled, nothing else moves), or the delta was applied
and persisted, possibly followed by one cheque credit that was likewise
applied and persisted.  The balance fault switches are never touched. -/
theorem add_balance_effect (s : Swap) (env : Env) (a : Int) (p : PeerID)
    (hgf : s.store.getBalanceFault p = none)
    (hpf : s.store.putBalanceFault p = none) :
    (s.Add env a p).1.store.getBalanceFault = s.store.getBalanceFault ∧
    (s.Add env a p).1.store.putBalanceFault = s.store.putBalanceFault ∧
    ((alookup (s.Add env a p).1.balances p = some (s.effBalance p) ∧
      (s.Add env a p).1.applied = s.applied ∧
      (s.Add env a p).1.store.balances = s.store.balances) ∨
     (alookup (s.Add env a p).1.balances p = some (s.effBalance p + a) ∧
      (s.Add env a p).1.applied = s.applied ++ [a] ∧
      (s.Add env a p).1.store.balances =
        aset s.store.balances p (s.effBalance p + a)) ∨
     (∃ d, alookup (s.Add env a p).1.balances p = some (s.effBalance p + a + d) ∧
      (s.Add env a p).1.applied = s.applied ++ [a, d] ∧
      (s.Add env a p).1.store.balances =
        aset (aset s.store.balances p (s.effBalance p + a)) p
          (s.effBalance p + a + d))) := by
  obtain ⟨herr, hcp, _, hst, _, hap, hpt, hdt, _⟩ := loadBalance_fault_free s p hgf
  rcases hsl : s.loadBalance p with ⟨s₁, lerr⟩
  simp only [hsl] at herr hcp hst hap hpt hdt
  have hmem : s₁.memBalance p = s.effBalance p := by simp [Swap.memBalance, hcp]
  by_cases hth : s₁.memBalance p ≥ s₁.disconnectThreshold
  · have hAdd : s.Add env a p = (s₁, some (.disconnected p s₁.disconnectThreshold)) := by
      rcases herr with h | h <;> subst h <;>
        · simp only [Swap.Add, hsl]
          rw [if_pos hth]
    rw [hAdd]
    exact ⟨by rw [hst], by rw [hst],
      Or.inl ⟨by rw [hcp], hap, by rw [hst]⟩⟩
  · have hub := updateBalance_fault_free s₁ p a (by rw [hst]; exact hpf)
    by_cases hpay : s₁.memBalance p + a ≤ -s₁.paymentThreshold
    · have hAdd : s.Add env a p = ((s₁.updateBalance p a).1).sendCheque env p := by
        rcases herr with h | h <;> subst h <;>
          · simp only [Swap.Add, hsl]
            rw [if_neg hth, hub]
            simp only []
            rw [if_pos hpay]
      rw [hAdd]
      set s₂ := (s₁.updateBalance p a).1 with hs₂
      have h2bal : s₂.balances = aset s₁.balances p (s.effBalance p + a) := by
        rw [hs₂, hub]
        simp [hmem]
      have h2stb : s₂.store.balances =
          aset s.store.balances p (s.effBalance p + a) := by
        rw [hs₂, hub]
        simp [hst, hmem]
      have h2ap : s₂.applied = s.applied ++ [a] := by
        rw [hs₂, hub]
        simp [hap]
      have h2gf : s₂.store.getBalanceFault = s.store.getBalanceFault := by
        rw [hs₂, hub]
        simp [hst]
      have h2pf : s₂.store.putBalanceFault = s.store.putBalanceFault := by
        rw [hs₂, hub]
        simp [hst]
      have h2mem : s₂.memBalance p = s.effBalance p + a := by
        rw [Swap.memBalance, h2bal]
        simp [alookup_aset]
      obtain ⟨hcases, hg, hp⟩ := sendCheque_balance_effect s₂ env p
        (by rw [h2pf]; exact hpf)
      refine ⟨by rw [hg, h2gf], by rw [hp, h2pf], ?_⟩
      rcases hcases with ⟨hb', hsb', hap'⟩ | ⟨d, hb', hsb', hap'⟩
      · refine Or.inr (Or.inl ⟨?_, ?_, ?_⟩)
        · rw [hb', h2bal]
          simp [alookup_aset]
        · rw [hap', h2ap]
        · rw [hsb', h2stb]
      · refine Or.inr (Or.inr ⟨d, ?_, ?_, ?_⟩)
        · rw [hb', h2mem, h2bal]
          simp [alookup_aset]
        · rw [hap', h2ap]
          simp
        · rw [hsb', h2mem, h2stb]
    · have hAdd : s.Add env a p = ((s₁.updateBalance p a).1, none) := by
        rcases herr with h | h <;> subst h <;>
          · simp only [Swap.Add, hsl]
            rw [if_neg hth, hub]
            simp only []
            rw [if_neg hpay]
      rw [hAdd, hub]
      refine ⟨by simp [hst], by simp [hst],
        Or.inr (Or.inl ⟨by simp [alookup_aset, hmem], by simp [hap],
          by simp [hst, hmem]⟩)⟩

/-- C1: for a peer whose balance never reaches the disconnect threshold
during a finite sequence of `Add` calls on a store whose balance reads
and writes succeed, the balance after the sequence equals the initial
stored balance (zero for a never-seen peer) plus the sum of all applied
deltas, and a fresh `Balance` read after a restart with the resulting
store — an empty cache — returns that same value. -/
theorem add_sequence_sums_and_persists (s₀ : Swap) (env : Env) (p : PeerID)
    (amounts : List Int)
    (hgf : s₀.store.getBalanceFault p = none)
    (hpf : s₀.store.putBalanceFault p = none)
    (hfresh : alookup s₀.balances p = none)
    (happ : s₀.applied = [])
    (hthr : ∀ n, n ≤ amounts.length →
      (s₀.runAdds env p (amounts.take n)).effBalance p < s₀.disconnectThreshold) :
    (s₀.runAdds env p amounts).effBalance p =
      (alookup s₀.store.balances p).getD 0 +
        (s₀.runAdds env p amounts).applied.sum ∧
    (Swap.Balance { (s₀.runAdds env p amounts) with balances := [] } p).1 =
      (alookup s₀.store.balances p).getD 0 +
        (s₀.runAdds env p amounts).applied.sum := by
  have main : ∀ (l : List Int) (s : Swap),
      s.store.getBalanceFault p = none →
      s.store.putBalanceFault p = none →
      ((alookup s.balances p = none ∧ s.applied = [] ∧
          alookup s.store.balances p = alookup s₀.store.balances p) ∨
       (alookup s.balances p =
            some ((alookup s₀.store.balances p).getD 0 + s.applied.sum) ∧
          s.applied = [] ∧
          alookup s.store.balances p = alookup s₀.store.balances p) ∨
       (alookup s.balances p =
            some ((alookup s₀.store.balances p).getD 0 + s.applied.sum) ∧
          alookup s.store.balances p =
            some ((alookup s₀.store.balances p).getD 0 + s.applied.sum))) →
      ((s.runAdds env p l).store.getBalanceFault p = none ∧
       (s.runAdds env p l).store.putBalanceFault p = none ∧
       ((alookup (s.runAdds env p l).balances p = none ∧
           (s.runAdds env p l).applied = [] ∧
           alookup (s.runAdds env p l).store.balances p =
             alookup s₀.store.balances p) ∨
        (alookup (s.runAdds env p l).balances p =
             some ((alookup s₀.store.balances p).getD 0 +
               (s.runAdds env p l).applied.sum) ∧
           (s.runAdds env p l).applied = [] ∧
           alookup (s.runAdds env p l).store.balances p =
             alookup s₀.store.balances p) ∨
        (alookup (s.runAdds env p l).balances p =
             some ((alookup s₀.store.balances p).getD 0 +
               (s.runAdds env p l).applied.sum) ∧
           alookup (s.runAdds env p l).store.balances p =
             some ((alookup s₀.store.balances p).getD 0 +
               (s.runAdds env p l).applied.sum)))) := by
    intro l
    induction l with
    | nil => exact fun s h1 h2 h3 => ⟨h1, h2, h3⟩
    | cons a rest ih =>
      intro s h1 h2 h3
      obtain ⟨hgf', hpf', hcase⟩ := add_balance_effect s env a p h1 h2
      have heff : s.effBalance p =
          (alookup s₀.store.balances p).getD 0 + s.applied.sum := by
        rcases h3 with ⟨hc, ha, hs⟩ | ⟨hc, ha, hs⟩ | ⟨hc, hs⟩
        · rw [Swap.effBalance, hc, hs, ha]
          simp
        · simp [Swap.effBalance, hc]
        · simp [Swap.effBalance, hc]
      have hstep : (s.runAdds env p (a :: rest)) =
          (((s.Add env a p).1).runAdds env p rest) := rfl
      rw [hstep]
      refine ih ((s.Add env a p).1) (by rw [congrFun hgf' p]; exact h1)
        (by rw [congrFun hpf' p]; exact h2) ?_
      rcases hcase with ⟨hc', ha', hs'⟩ | ⟨hc', ha', hs'⟩ | ⟨d, hc', ha', hs'⟩
      · rcases h3 with ⟨hc, ha, hs⟩ | ⟨hc, ha, hs⟩ | ⟨hc, hs⟩
        · exact Or.inr (Or.inl ⟨by rw [hc', heff, ha'], by rw [ha']; exact ha,
            by rw [hs']; exact hs⟩)
        · exact Or.inr (Or.inl ⟨by rw [hc', heff, ha'], by rw [ha']; exact ha,
            by rw [hs']; exact hs⟩)
        · exact Or.inr (Or.inr ⟨by rw [hc', heff, ha'], by rw [hs', ha']; exact hs⟩)
      · refine Or.inr (Or.inr ⟨?_, ?_⟩)
        · rw [hc', heff, ha']
          simp [add_assoc]
        · rw [hs', heff, ha']
          simp [alookup_aset, add_assoc]
      · refine Or.inr (Or.inr ⟨?_, ?_⟩)
        · rw [hc', heff, ha']
          simp [add_assoc]
        · rw [hs', heff, ha']
          simp [alookup_aset, add_assoc]
  obtain ⟨hgfF, hpfF, hinv⟩ := main amounts s₀ hgf hpf (Or.inl ⟨hfresh, happ, rfl⟩)
  constructor
  · rcases hinv with ⟨hc, ha, hs⟩ | ⟨hc, ha, hs⟩ | ⟨hc, hs⟩
    · rw [Swap.effBalance, hc, hs, ha]
      simp
    · simp [Swap.effBalance, hc]
    · simp [Swap.effBalance, hc]
  · have hBal : (Swap.Balance { (s₀.runAdds env p amounts) with balances := [] } p).1 =
        (alookup (s₀.runAdds env p amounts).store.balances p).getD 0 := by
      rw [Swap.Balance]
      simp only [alookup]
      unfold StateStore.getBalance
      rw [show ({ (s₀.runAdds env p amounts) with
        balances := ([] : List (PeerID × Int)) } : Swap).store =
          (s₀.runAdds env p amounts).store from rfl]
      rw [hgfF]
      cases hx : alookup (s₀.runAdds env p amounts).store.balances p <;> simp [hx]
    rw [hBal]
    rcases hinv with ⟨hc, ha, hs⟩ | ⟨hc, ha, hs⟩ | ⟨hc, hs⟩
    · rw [hs, ha]
      simp
    · rw [hs, ha]
      simp
    · rw [hs]
      simp

/-- Witness for C1 at the spec's concrete scenario `[-40, -61]` on a
fresh ledger (the second call crosses the payment threshold, so the
cheque credit is among the applied deltas): the final balance equals the
initial stored balance plus the sum of all applied deltas, and a fresh
`Balance` read after reload agrees. -/
theorem add_sequence_sums_and_persists_witness :
    (swOK.runAdds envOK "p" [-40, -61]).effBalance "p" =
      (alookup swOK.store.balances "p").getD 0 +
        (swOK.runAdds envOK "p" [-40, -61]).applied.sum ∧
    (Swap.Balance { (swOK.runAdds envOK "p" [-40, -61]) with balances := [] } "p").1 =
      (alookup swOK.store.balances "p").getD 0 +
        (swOK.runAdds envOK "p" [-40, -61]).applied.sum :=
  add_sequence_sums_and_persists swOK envOK "p" [-40, -61] rfl rfl rfl rfl
    (by decide)
